import Mathlib

/-!
Verification of the `handelsregister` command-line client
(`src/handelsregister.py`) against its natural-language specification.

The development shallowly embeds the pure extraction / matching logic of the
source file:

* Python strings are modelled as lists of code points (`Str := List Nat`);
  character classes (`\s`, `\d`, `\w`, case mapping) are modelled over ASCII.
* Parsed HTML (the BeautifulSoup document) is modelled as a forest of `Node`
  trees; BeautifulSoup's recursive `find_all` / `find_parent` traversals are
  modelled by explicit pre-order traversals that carry the ancestor chain.
* `datetime.datetime.strptime(s, "%d.%m.%Y")` is modelled by `parseDate`
  (with calendar validation and the `datetime` year range 1..9999).
* Python exceptions that escape a function are modelled by `Option` results
  (`none` = the call raises).

Network and file-system side effects (mechanize, caching, printing) are out of
scope: the embedded functions are the pure parsing / deduplication / matching
cores that the specification's testable properties talk about.
-/

/-! ### Python strings as lists of code points -/

abbrev Str := List Nat

/-- Code points of a literal (used to write the concrete strings that appear
in the source). -/
def str (s : String) : Str := s.toList.map Char.toNat

/-- Python `\s` (ASCII part): space, tab, newline, vertical tab, form feed,
carriage return. -/
def isSpaceC (c : Nat) : Bool := c = 32 || c = 9 || c = 10 || c = 11 || c = 12 || c = 13

/-- Python `\d` (ASCII part). -/
def isDigitC (c : Nat) : Bool := 48 ≤ c && c ≤ 57

/-- Regex class `[A-Z]`. -/
def isUpperC (c : Nat) : Bool := 65 ≤ c && c ≤ 90

/-- Python `\w` (ASCII part): letters, digits and underscore. -/
def isWordC (c : Nat) : Bool :=
  (48 ≤ c && c ≤ 57) || (65 ≤ c && c ≤ 90) || (97 ≤ c && c ≤ 122) || c = 95

/-- `str.lower` on one code point (ASCII part). -/
def toLowerC (c : Nat) : Nat := if 65 ≤ c && c ≤ 90 then c + 32 else c

/-- `str.upper` on one code point (ASCII part). -/
def toUpperC (c : Nat) : Nat := if 97 ≤ c && c ≤ 122 then c - 32 else c

def lowerStr (s : Str) : Str := s.map toLowerC

def upperStr (s : Str) : Str := s.map toUpperC

/-- Python `str.strip()` (whitespace from both ends). -/
def strip (s : Str) : Str :=
  ((s.dropWhile isSpaceC).reverse.dropWhile isSpaceC).reverse

/-- Python substring test `pat in s`. -/
def isSubstr (pat : Str) : Str → Bool
  | [] => pat.isPrefixOf []
  | c :: rest => pat.isPrefixOf (c :: rest) || isSubstr pat rest

/-- Python `s.endswith(suf)`. -/
def endsWithS (s suf : Str) : Bool := suf.reverse.isPrefixOf s.reverse

/-- Python `s.replace(' ', …)`-style single-character replacement
(left to right, all occurrences). -/
def replace1 (a r : Nat) : Str → Str
  | [] => []
  | c :: rest => (if c = a then r else c) :: replace1 a r rest

/-- Python three-character pattern replacement `s.replace([a,b,c], [r])`
(left to right, non-overlapping). -/
def replace3 (a b c r : Nat) : Str → Str
  | [] => []
  | [x] => [x]
  | [x, y] => [x, y]
  | x :: y :: z :: rest =>
    if x = a ∧ y = b ∧ z = c then r :: replace3 a b c r rest
    else x :: replace3 a b c r (y :: z :: rest)

/-- `re.sub(r'_+', '_', t)`: collapse every run of underscores to one. -/
def collapseU : Str → Str
  | [] => []
  | [c] => [c]
  | c1 :: c2 :: rest =>
    if c1 = 95 ∧ c2 = 95 then collapseU (c2 :: rest)
    else c1 :: collapseU (c2 :: rest)

/-- Python `t.strip('_')`. -/
def stripUnder (s : Str) : Str :=
  ((s.dropWhile (fun c => c = 95)).reverse.dropWhile (fun c => c = 95)).reverse

/-- Python `s.replace(' ', '')`. -/
def removeSpaces (s : Str) : Str := s.filter (fun c => c ≠ 32)

/-- Python `s.split()[0]` (first whitespace-separated token; `[]` when the
string holds no token, a case that never arises at the call site because the
argument is a nonempty regex match). -/
def firstToken (s : Str) : Str :=
  (s.dropWhile isSpaceC).takeWhile (fun c => !(isSpaceC c))

/-- Python truthiness of an optional string (`None` and `""` are falsy). -/
def truthyOpt : Option Str → Bool
  | none => false
  | some s => s ≠ []

/-! ### Dates (`datetime.datetime.strptime(s, "%d.%m.%Y")`) -/

structure PDate where
  year : Nat
  month : Nat
  day : Nat
deriving DecidableEq, Repr

def leapYear (y : Nat) : Bool := (y % 4 = 0 && y % 100 ≠ 0) || y % 400 = 0

def daysInMonth (y m : Nat) : Nat :=
  if m = 2 then (if leapYear y then 29 else 28)
  else if m = 4 ∨ m = 6 ∨ m = 9 ∨ m = 11 then 30
  else 31

/-- Bounds that every successfully parsed date satisfies. -/
def dateValid (d : PDate) : Bool :=
  1 ≤ d.year && d.year ≤ 9999 && 1 ≤ d.month && d.month ≤ 12 && 1 ≤ d.day && d.day ≤ 31

/-- `strptime(s, "%d.%m.%Y")` on a ten-character `dd.mm.yyyy` candidate:
digits are decoded and the calendar (and the `datetime` year range) is
validated; failure models the `ValueError` that the source catches. -/
def parseDate (s : Str) : Option PDate :=
  match s with
  | [d1, d2, p1, m1, m2, p2, y1, y2, y3, y4] =>
    if isDigitC d1 && isDigitC d2 && p1 = 46 && isDigitC m1 && isDigitC m2 && p2 = 46 &&
        isDigitC y1 && isDigitC y2 && isDigitC y3 && isDigitC y4 then
      let dd := 10 * (d1 - 48) + (d2 - 48)
      let mm := 10 * (m1 - 48) + (m2 - 48)
      let yy := 1000 * (y1 - 48) + 100 * (y2 - 48) + 10 * (y3 - 48) + (y4 - 48)
      if 1 ≤ yy && yy ≤ 9999 && 1 ≤ mm && mm ≤ 12 && 1 ≤ dd && dd ≤ daysInMonth yy mm then
        some ⟨yy, mm, dd⟩
      else none
    else none
  | _ => none

/-- Chronological key (`datetime` comparison restricted to the valid dates the
parser produces). -/
def dateEnc (d : PDate) : Nat := d.year * 10000 + d.month * 100 + d.day

/-! ### The parsed HTML document

BeautifulSoup's parsed page is modelled as a forest of nodes; `find_all`
is a pre-order traversal of all descendants, `find_parent` a walk up the
explicit ancestor chain. -/

inductive Node where
  | text (s : Str)
  | elem (tag : Str) (attrs : List (Str × Str)) (children : List Node)

def tagOf : Node → Str
  | .text _ => []
  | .elem t _ _ => t

def attrsOf : Node → List (Str × Str)
  | .text _ => []
  | .elem _ a _ => a

def childrenOf : Node → List Node
  | .text _ => []
  | .elem _ _ cs => cs

/-- Attribute lookup (`tag.get(key)` / `key in tag.attrs`). -/
def getAttr (attrs : List (Str × Str)) (k : Str) : Option Str :=
  match attrs.find? (fun p => p.1 = k) with
  | some p => some p.2
  | none => none

mutual

/-- `tag.text`: concatenation of all descendant strings, document order. -/
def nodeText : Node → Str
  | .text s => s
  | .elem _ _ cs => nodeTextL cs

def nodeTextL : List Node → Str
  | [] => []
  | n :: ns => nodeText n ++ nodeTextL ns

end

mutual

/-- All descendant text nodes paired with their ancestor element chain
(innermost ancestor first), in document order — the data `find_all(string=…)`
plus `.parent` / `.find_parent` traversals read. -/
def textsWithChainN (anc : List Node) : Node → List (Str × List Node)
  | .text s => [(s, anc)]
  | .elem t a cs => textsWithChainL (Node.elem t a cs :: anc) cs

def textsWithChainL (anc : List Node) : List Node → List (Str × List Node)
  | [] => []
  | n :: ns => textsWithChainN anc n ++ textsWithChainL anc ns

end

mutual

/-- All descendant element nodes paired with their ancestor chain
(innermost first), in document order. -/
def elemsWithChainN (anc : List Node) : Node → List (Node × List Node)
  | .text _ => []
  | .elem t a cs =>
    (Node.elem t a cs, anc) :: elemsWithChainL (Node.elem t a cs :: anc) cs

def elemsWithChainL (anc : List Node) : List Node → List (Node × List Node)
  | [] => []
  | n :: ns => elemsWithChainN anc n ++ elemsWithChainL anc ns

end

/-- `root.find_all(tag)`: descendant elements with the given name,
document order (the root itself is not included). -/
def descTag (t : Str) (n : Node) : List Node :=
  ((elemsWithChainL [] (childrenOf n)).map Prod.fst).filter (fun e => tagOf e = t)

/-- `root.find(tag)`: first matching descendant. -/
def firstDescTag (t : Str) (n : Node) : Option Node :=
  (((elemsWithChainL [] (childrenOf n)).map Prod.fst).find? (fun e => tagOf e = t))

/-- BeautifulSoup `tag.string`: the single string below a chain of
single-child tags, `None` otherwise. -/
def nodeString : Node → Option Str
  | .text s => some s
  | .elem _ _ [c] => nodeString c
  | .elem _ _ _ => none

/-! ### `HandelsRegister.normalize_type` -/

/-- `normalize_type` (src/handelsregister.py lines 278-290): `None`/empty in,
`None` out; otherwise separators are replaced by underscores, the string is
upper-cased, underscore runs are merged and outer underscores stripped. -/
def normalize_type (type_string : Option Str) : Option Str :=
  match type_string with
  | none => none
  | some s =>
    if s = [] then none
    else
      let t := replace1 47 95 (replace1 32 95 (replace3 32 45 32 95 (replace3 32 47 32 95 s)))
      some (stripUnder (collapseU (upperStr t)))

/-! ### `HandelsRegister.parse_documents` -/

structure Doc where
  id : Str
  pdf : Option Str
  rowkey : Option Str
  date : PDate
  name : Str
  typeString : Option Str
  type : Option Str
deriving DecidableEq, Repr

/-- The session-expiry short circuit: either marker, matched on the
lower-cased raw response body. -/
def sessionExpired (raw : Str) : Bool :=
  isSubstr (str "session has expired") (lowerStr raw) ||
  isSubstr (str "sitzung abgelaufen") (lowerStr raw)

/-- First match of `(\d{2}\.\d{2}\.\d{4})` starting at the head of `s`. -/
def match10 (s : Str) : Option Str :=
  match s with
  | a :: b :: c :: d :: e :: f :: g :: h :: i :: j :: _ =>
    if isDigitC a && isDigitC b && c = 46 && isDigitC d && isDigitC e && f = 46 &&
        isDigitC g && isDigitC h && isDigitC i && isDigitC j then
      some [a, b, c, d, e, f, g, h, i, j]
    else none
  | _ => none

/-- `date_pattern.search(text)`: leftmost `dd.mm.yyyy`-shaped substring. -/
def findDate : Str → Option Str
  | [] => none
  | c :: rest =>
    match match10 (c :: rest) with
    | some m => some m
    | none => findDate rest

/-- One candidate of the primary (tree) strategy: a text node containing a
date, with its ancestor chain.  Mirrors the body of the
`for text_node in elements_with_dates` loop (lines 310-378); `none` models
`continue`. -/
def mkPrimaryDoc (dt : Option Str) (tc : Str × List Node) : Option Doc :=
  match findDate tc.1 with
  | none => none
  | some ds =>
    match parseDate ds with
    | none => none
    | some d =>
      -- node_parent = text_node.parent; link = node_parent.find_parent('a')
      let link : Option Node := (tc.2.drop 1).find? (fun n => tagOf n = str "a")
      let pdf0 : Option Str :=
        match link with
        | some l => getAttr (attrsOf l) (str "href")
        | none => none
      -- a literal '#' href signals a JSF action: store the link's own id
      let pdf1 : Option Str :=
        if pdf0 = some (str "#") then
          match link with
          | some l => getAttr (attrsOf l) (str "id")
          | none => none
        else pdf0
      let name := strip tc.1
      let rowkey : Option Str :=
        if truthyOpt pdf1 then none
        else
          match (tc.2.take 4).find?
              (fun n => tagOf n = str "li" && (getAttr (attrsOf n) (str "data-rowkey")).isSome) with
          | some n => getAttr (attrsOf n) (str "data-rowkey")
          | none => none
      some { id := match pdf1 with
                   | some s => if s = [] then name else s
                   | none => name
             pdf := pdf1
             rowkey := rowkey
             date := d
             name := name
             typeString := dt
             type := normalize_type dt }

/-- Primary strategy over the whole document (lines 304-378). -/
def primaryDocs (doc : List Node) (dt : Option Str) : List Doc :=
  (textsWithChainL [] doc).filterMap (mkPrimaryDoc dt)

/-- One row of the tabular fallback strategy (lines 383-422); `none` models
`continue` / the missing-link guard. -/
def mkFallbackRow (dt : Option Str) (row : Node) : Option Doc :=
  let cells := descTag (str "td") row
  if cells.length < 3 then none
  else
    match cells.findSome? (fun c => findDate (strip (nodeText c))) with
    | none => none
    | some dstr =>
      match parseDate dstr with
      | none => none
      | some d =>
        match cells.findSome?
            (fun c => (firstDescTag (str "a") c).bind (fun l => getAttr (attrsOf l) (str "href"))) with
        | none => none
        | some pdf =>
          if pdf = [] then none
          else some { id := pdf, pdf := some pdf, rowkey := none, date := d,
                      name := dstr, typeString := dt, type := normalize_type dt }

/-- Fallback strategy: every `<table role="grid">`, row by row. -/
def fallbackDocs (doc : List Node) (dt : Option Str) : List Doc :=
  (((elemsWithChainL [] doc).map Prod.fst).filter
      (fun n => tagOf n = str "table" && getAttr (attrsOf n) (str "role") = some (str "grid"))).flatMap
    (fun t => (descTag (str "tr") t).filterMap (mkFallbackRow dt))

/-- The raw extraction result before deduplication: primary strategy, tabular
fallback only if the primary found nothing (`if not docs:` at line 381). -/
def collectDocs (doc : List Node) (dt : Option Str) : List Doc :=
  let p := primaryDocs doc dt
  if p = [] then fallbackDocs doc dt else p

/-- `f"{d['date']}_{d['id']}"`: `str(datetime)` is the nineteen-character
`YYYY-MM-DD 00:00:00` (dates parsed by `%d.%m.%Y` are midnight), then an
underscore, then the id. -/
def docKey (d : Doc) : Str :=
  (48 + d.date.year / 1000 % 10) :: (48 + d.date.year / 100 % 10) ::
  (48 + d.date.year / 10 % 10) :: (48 + d.date.year % 10) :: 45 ::
  (48 + d.date.month / 10 % 10) :: (48 + d.date.month % 10) :: 45 ::
  (48 + d.date.day / 10 % 10) :: (48 + d.date.day % 10) ::
  32 :: 48 :: 48 :: 58 :: 48 :: 48 :: 58 :: 48 :: 48 :: 95 :: d.id

/-- Python dict insertion: overwriting a present key keeps its position,
a new key is appended. -/
def upsert (k : Str) (v : Doc) : List (Str × Doc) → List (Str × Doc)
  | [] => [(k, v)]
  | (k', v') :: t => if k' = k then (k', v) :: t else (k', v') :: upsert k v t

/-- `unique_docs = {}` … `unique_docs[key] = d` over the extracted list. -/
def buildDict (docs : List Doc) : List (Str × Doc) :=
  docs.foldl (fun acc d => upsert (docKey d) d acc) []

/-- `unique_docs.values()` in insertion order. -/
def dedupDocs (docs : List Doc) : List Doc := (buildDict docs).map Prod.snd

/-- The comparison behind `sorted(…, key=lambda x: x['date'], reverse=True)`. -/
def docGE (a b : Doc) : Prop := dateEnc b.date ≤ dateEnc a.date

instance : DecidableRel docGE := fun a b => Nat.decLe (dateEnc b.date) (dateEnc a.date)

instance : IsTotal Doc docGE := ⟨fun a b => Nat.le_total (dateEnc b.date) (dateEnc a.date)⟩

instance : IsTrans Doc docGE := ⟨fun a b c h1 h2 => by unfold docGE at *; omega⟩

/-- Python `sorted` is a stable sort by key; `List.insertionSort` with the
date-descending relation is exactly that. -/
def sortDocs (l : List Doc) : List Doc := List.insertionSort docGE l

/-- `HandelsRegister.parse_documents` (lines 292-431).  `raw` is the response
body the session-expiry markers are searched in, `doc` the corresponding
parsed forest, `dt` the `default_type` argument. -/
def parse_documents (raw : Str) (doc : List Node) (dt : Option Str) : List Doc :=
  if sessionExpired raw then []
  else sortDocs (dedupDocs (collectDocs doc dt))

/-! ### Register-number extraction
(`re.search(r'(HRA|HRB|GnR|VR|PR)\s*\d+(\s+[A-Z])?(?!\w)', court)`, line 732) -/

/-- The alternation `(HRA|HRB|GnR|VR|PR)`, tried in order at one position. -/
def takeRegPrefix (s : Str) : Option (Str × Str) :=
  if (str "HRA").isPrefixOf s then some (str "HRA", s.drop 3)
  else if (str "HRB").isPrefixOf s then some (str "HRB", s.drop 3)
  else if (str "GnR").isPrefixOf s then some (str "GnR", s.drop 3)
  else if (str "VR").isPrefixOf s then some (str "VR", s.drop 2)
  else if (str "PR").isPrefixOf s then some (str "PR", s.drop 2)
  else none

/-- `l.head?` fails the `(?!\w)` negative lookahead. -/
def headIsWord (l : Str) : Bool :=
  match l with
  | [] => false
  | c :: _ => isWordC c

/-- Match of the register-number pattern anchored at the start of `s`;
returns the match and the remainder.  `\s*` and `\d+` are greedy (their
character classes are disjoint from what follows, so backtracking into them
never helps); the optional `(\s+[A-Z])` group is tried first, and dropped when
its own `(?!\w)` lookahead fails. -/
def matchRegAt (s : Str) : Option (Str × Str) :=
  match takeRegPrefix s with
  | none => none
  | some (p, r0) =>
    let sp := r0.takeWhile isSpaceC
    let r1 := r0.dropWhile isSpaceC
    let ds := r1.takeWhile isDigitC
    let r2 := r1.dropWhile isDigitC
    if ds = [] then none
    else
      let sp2 := r2.takeWhile isSpaceC
      let r3 := r2.dropWhile isSpaceC
      let withGroup : Option (Str × Str) :=
        if sp2 = [] then none
        else
          match r3 with
          | [] => none
          | c :: r4 =>
            if isUpperC c && !headIsWord r4 then some (p ++ sp ++ ds ++ sp2 ++ [c], r4)
            else none
      match withGroup with
      | some res => some res
      | none => if headIsWord r2 then none else some (p ++ sp ++ ds, r2)

/-- `re.search` for the register-number pattern: leftmost matching position;
returns (text before the match, the match, the text after it). -/
def searchRegFull : Str → Option (Str × Str × Str)
  | [] => none
  | c :: rest =>
    match matchRegAt (c :: rest) with
    | some (r, post) => some ([], r, post)
    | none =>
      match searchRegFull rest with
      | some (pre, r, post) => some (c :: pre, r, post)
      | none => none

/-- `reg_match.group(0) if reg_match else None`. -/
def searchReg (court : Str) : Option Str :=
  match searchRegFull court with
  | some (_, r, _) => some r
  | none => none

/-! ### Jurisdiction-specific register-number suffixes (lines 763-772) -/

/-- `suffix_map.get(state, {}).get(reg_type)`. -/
def suffixFor (state regType : Str) : Option Str :=
  if state = str "Berlin" then
    if regType = str "HRB" then some (str " B") else none
  else if state = str "Bremen" then
    if regType = str "HRA" ∨ regType = str "HRB" ∨ regType = str "GnR" ∨
        regType = str "VR" ∨ regType = str "PR" then some (str " HB")
    else none
  else none

/-- The suffix rule applied to one recognized register number: look the
mandatory suffix up by (state, first token) and append it if missing. -/
def fixSuffix (state : Str) (r : Str) : Str :=
  match suffixFor state (firstToken r) with
  | none => r
  | some suf => if endsWithS r suf then r else r ++ suf

/-! ### City extraction
(`re.search(r'(?:District court|Amtsgericht)\s+(.*?)\s+(?:HRA|HRB|GnR|VR|PR)', …)`,
line 755, with the greedy fallback of line 760) -/

/-- Does one of the five register-type literals start here? -/
def regTypeHere (s : Str) : Bool := (takeRegPrefix s).isSome

/-- `\s+(?:HRA|HRB|GnR|VR|PR)` anchored here (≥ 1 whitespace, then a
register-type literal; shrinking the greedy `\s+` cannot help since the
literals start with letters). -/
def wsThenRegType (s : Str) : Bool :=
  s.takeWhile isSpaceC ≠ [] && regTypeHere (s.dropWhile isSpaceC)

/-- The lazy `(.*?)` of the city pattern: grow the group one character at a
time until `\s+(?:…)` fits; `.` does not match a newline, so hitting one
kills the attempt. -/
def cityScan : Str → Option Str
  | [] => none
  | c :: rest =>
    if wsThenRegType (c :: rest) then some []
    else if c = 10 then none
    else
      match cityScan rest with
      | some g => some (c :: g)
      | none => none

/-- `(?:District court|Amtsgericht)` at one position (alternation order as
written); returns the remainder after the literal. -/
def courtLitHere (s : Str) : Option Str :=
  if (str "District court").isPrefixOf s then some (s.drop 14)
  else if (str "Amtsgericht").isPrefixOf s then some (s.drop 11)
  else none

/-- Attempt the full city pattern at a position where the court literal
matched.  The leading `\s+` is greedy; when the lazy scan from after the
whitespace fails, backtracking the `\s+` leaves the group starting on a
whitespace character, which can only succeed with an empty group directly
followed by `\s+(?:…)` — i.e. when the text after the whitespace run starts
with a register-type literal (needs at least two whitespace characters so
that one remains for the `\s+`). -/
def cityAt (rest : Str) : Option Str :=
  let sp := rest.takeWhile isSpaceC
  let body := rest.dropWhile isSpaceC
  if sp = [] then none
  else
    match cityScan body with
    | some g => some g
    | none => if 2 ≤ sp.length && regTypeHere body then some [] else none

/-- `re.search` for the city pattern: leftmost position where the whole
pattern matches; result is `group(1)`. -/
def citySearch : Str → Option Str
  | [] => none
  | c :: rest =>
    match (courtLitHere (c :: rest)).bind cityAt with
    | some g => some g
    | none => citySearch rest

/-- The fallback pattern `(?:District court|Amtsgericht)\s+(.*)`: after the
literal and a nonempty greedy whitespace run, the greedy `(.*)` takes
everything up to the next newline (or the end). -/
def cityFallbackAt (rest : Str) : Option Str :=
  if rest.takeWhile isSpaceC = [] then none
  else some ((rest.dropWhile isSpaceC).takeWhile (fun c => c ≠ 10))

def cityFallbackSearch : Str → Option Str
  | [] => none
  | c :: rest =>
    match (courtLitHere (c :: rest)).bind cityFallbackAt with
    | some g => some g
    | none => cityFallbackSearch rest

/-! ### `parse_result` and `get_companies_in_searchresults` (lines 723-826) -/

structure Company where
  court : Str
  register_num : Option Str
  name : Str
  state : Str
  status : Str
  statusCurrent : Str
  federalState : Str
  city : Option Str
  documents : List Doc
  dk_id : Option Str
  history : List (Str × Str)
deriving DecidableEq, Repr

/-- The history loop (`for i in range(hist_start, len(cells), 3)`), with the
break on a missing partner cell or on a "Branches"/"Niederlassungen" cell. -/
def historyFrom (cells : List Str) (i fuel : Nat) : List (Str × Str) :=
  match fuel with
  | 0 => []
  | fuel + 1 =>
    if cells.length ≤ i + 1 then []
    else if isSubstr (str "Branches") (cells.getD i []) ||
        isSubstr (str "Niederlassungen") (cells.getD i []) then []
    else (cells.getD i [], cells.getD (i + 1) []) :: historyFrom cells (i + 3) fuel

/-- The `DK` document-handle extraction from cell 5 (lines 779-789): the first
descendant `span` whose `.string` contains `DK`, then the id of its nearest
enclosing `a`.  (Ancestors above the row are not represented; a document link
always sits inside its cell.) -/
def dkIdOf (td5 : Node) : Option Str :=
  match (elemsWithChainL [td5] (childrenOf td5)).find?
      (fun nc => tagOf nc.1 = str "span" &&
        (match nodeString nc.1 with
         | some t => isSubstr (str "DK") t
         | none => false)) with
  | none => none
  | some nc =>
    match nc.2.find? (fun n => tagOf n = str "a") with
    | none => none
    | some link => getAttr (attrsOf link) (str "id")

/-- `parse_result(result)` (lines 723-801).  `none` models the `IndexError`
raised by `cells[1]` … `cells[4]` when the row has fewer than five cells. -/
def parse_result (row : Node) : Option Company :=
  let tds := descTag (str "td") row
  let cells := tds.map (fun td => strip (nodeText td))
  if cells.length < 5 then none
  else
    let court := cells.getD 1 []
    let reg0 := searchReg court
    let state := cells.getD 3 []
    let register_num :=
      match reg0 with
      | none => none
      | some r => some (fixSuffix state r)
    let court_clean := strip court
    let city :=
      match citySearch court_clean with
      | some g => some (strip g)
      | none =>
        match cityFallbackSearch court_clean with
        | some g => some (strip g)
        | none => none
    some { court := court
           register_num := register_num
           name := cells.getD 2 []
           state := state
           status := strip (cells.getD 4 [])
           statusCurrent := replace1 32 95 (upperStr (strip (cells.getD 4 [])))
           federalState := state
           city := city
           documents := []
           dk_id := if 5 < tds.length then dkIdOf (tds.getD 5 (Node.text [])) else none
           history := historyFrom cells 8 (cells.length + 1) }

/-- Python `int(s)`: optional surrounding whitespace, optional sign, at least
one digit.  (PEP-515 digit-group underscores are not modelled; the attribute
values this is applied to are plain row indices.) -/
def parseIntStr (s : Str) : Option Int :=
  let t := strip s
  let core : Option (Bool × Str) :=
    match t with
    | 43 :: rest => some (false, rest)
    | 45 :: rest => some (true, rest)
    | rest => some (false, rest)
  match core with
  | some (neg, ds) =>
    if ds ≠ [] && ds.all isDigitC then
      let v : Int := Int.ofNat (ds.foldl (fun acc c => 10 * acc + (c - 48)) 0)
      some (if neg then -v else v)
    else none
  | none => none

/-- `soup.find('table', role='grid')`. -/
def findGrid (doc : List Node) : Option Node :=
  ((elemsWithChainL [] doc).map Prod.fst).find?
    (fun n => tagOf n = str "table" && getAttr (attrsOf n) (str "role") = some (str "grid"))

/-- The row loop of `get_companies_in_searchresults`: rows without a
`data-ri` attribute are skipped; `int(a)` or `parse_result` raising
(modelled by `none`) aborts the whole extraction. -/
def collectRows : List Node → Option (List Company)
  | [] => some []
  | r :: rs =>
    match getAttr (attrsOf r) (str "data-ri") with
    | none => collectRows rs
    | some v =>
      match parseIntStr v with
      | none => none
      | some _ =>
        match parse_result r with
        | none => none
        | some c =>
          match collectRows rs with
          | none => none
          | some cs => some (c :: cs)

/-- `get_companies_in_searchresults(html)` (lines 814-826).  `none` models an
uncaught exception (no grid table, or a row that makes `parse_result` raise). -/
def get_companies_in_searchresults (doc : List Node) : Option (List Company) :=
  match findGrid doc with
  | none => none
  | some grid => collectRows (descTag (str "tr") grid)

/-! ### Company selection in `HandelsRegister.get_company` (lines 621-694)

The network search and the later document fetch are I/O; what is modelled is
the pure selection logic applied to the parsed search-result records: the
tiered name filter, the register-number filter, and the disambiguation.
The result is doubly optional: the outer `none` models an uncaught
`AttributeError` (a record whose register number is `None` reaches
`c_reg.replace`), `some none` models "no company found". -/

/-- The three name-filter tiers (lines 627-637): exact, case-insensitive
exact, then case-insensitive substring. -/
def nameFilterTiers (companies : List Company) (cn : Str) : List Company :=
  let t1 := companies.filter (fun c => c.name = cn)
  if t1 ≠ [] then t1
  else
    let t2 := companies.filter (fun c => lowerStr c.name = lowerStr cn)
    if t2 ≠ [] then t2
    else companies.filter (fun c => isSubstr (lowerStr cn) (lowerStr c.name))

/-- `if name_filtered: companies = name_filtered` (lines 639-645): an empty
filter result leaves the candidate set unchanged. -/
def applyNameFilter (companies : List Company) (cn : Str) : List Company :=
  let nf := nameFilterTiers companies cn
  if nf = [] then companies else nf

/-- The register-number filter (lines 650-663): exact, whitespace-normalized,
or prefix match.  A record whose register number is `None` raises
(`None.replace(' ', '')`), modelled by `none`. -/
def regFilter (register_num : Str) : List Company → Option (List Company)
  | [] => some []
  | c :: cs =>
    match c.register_num with
    | none => none
    | some cr =>
      let keep := cr = register_num || removeSpaces cr = removeSpaces register_num ||
        register_num.isPrefixOf cr
      match regFilter register_num cs with
      | none => none
      | some rest => some (if keep then c :: rest else rest)

/-- The selection logic of `get_company` after the search (lines 621-694),
applied to the parsed result records. -/
def get_company (companies : List Company) (register_num : Str)
    (company_name : Option Str) : Option (Option Company) :=
  let companies1 :=
    match company_name with
    | some cn => applyNameFilter companies cn
    | none => companies
  match regFilter register_num companies1 with
  | none => none
  | some mbr =>
    match company_name with
    | some cn =>
      match mbr with
      | [] => some none
      | [c] => some (some c)
      | c0 :: _ :: _ =>
        let cl := strip (lowerStr cn)
        match mbr.find? (fun c =>
            isSubstr cl (strip (lowerStr c.name)) || isSubstr (strip (lowerStr c.name)) cl) with
        | some c => some (some c)
        | none => some (some c0)
    | none =>
      match mbr with
      | [] => some none
      | c :: _ => some (some c)

/-! ## Concrete fixtures used by witnesses and counterexamples -/

/-- The two-record result set of the disambiguation example. -/
def exampleCo : Company :=
  { court := str "Berlin Amtsgericht Berlin (Charlottenburg) HRB 44343"
    register_num := some (str "HRB 44343 B")
    name := str "Example GmbH"
    state := str "Berlin"
    status := str "currently registered"
    statusCurrent := str "CURRENTLY_REGISTERED"
    federalState := str "Berlin"
    city := some (str "Berlin (Charlottenburg)")
    documents := []
    dk_id := none
    history := [] }

def otherCo : Company := { exampleCo with name := str "Other GmbH" }

/-- Documents fragment of the C6 example, with the anchor reference spelled
`#node42` as the claim describes it. -/
def c6tree : Node :=
  .elem (str "a") [(str "href", str "#node42"), (str "id", str "node42")]
    [.elem (str "span") [] [.text (str "14.03.2022 Gesellschafterliste")]]

/-- The same fragment with the placeholder reference `#` that the source
actually replaces by the element's identifier. -/
def c6treeAm : Node :=
  .elem (str "a") [(str "href", str "#"), (str "id", str "node42")]
    [.elem (str "span") [] [.text (str "14.03.2022 Gesellschafterliste")]]

/-! ## C1 — disambiguation by register number plus name -/

/-- C1: against the two-record result set `{HRB 44343 B, Example GmbH}`,
`{HRB 44343 B, Other GmbH}` — in either order — selecting with register
number `HRB 44343 B` and company name `Example GmbH` returns the
`Example GmbH` record, even when it is not first. -/
theorem get_company_disambiguates_by_name :
    get_company [exampleCo, otherCo] (str "HRB 44343 B") (some (str "Example GmbH")) =
      some (some exampleCo) ∧
    get_company [otherCo, exampleCo] (str "HRB 44343 B") (some (str "Example GmbH")) =
      some (some exampleCo) := by
  exact ⟨by decide, by decide⟩

/-! ## C3 — document lists are sorted non-increasing by date -/

/-- C3: for every response body, parsed forest and default type, every pair of
adjacent records in the list `parse_documents` returns has non-increasing
dates (ties in any order). -/
theorem parse_documents_sorted (raw : Str) (doc : List Node) (dt : Option Str) :
    List.Chain' (fun a b : Doc => dateEnc b.date ≤ dateEnc a.date)
      (parse_documents raw doc dt) := by
  unfold parse_documents
  split
  · exact List.chain'_nil
  · exact (List.sorted_insertionSort docGE (dedupDocs (collectDocs doc dt))).chain'

/-! ## C5 — session-expiry marker short-circuits to the empty list -/

/-- C5: a response body containing either of the two session-expired markers
(matched case-insensitively) makes `parse_documents` return the empty list,
whatever the parsed content is; the function returns normally (the source
additionally prints a warning). -/
theorem parse_documents_session_expired (raw : Str) (doc : List Node) (dt : Option Str)
    (h : isSubstr (str "session has expired") (lowerStr raw) = true ∨
         isSubstr (str "sitzung abgelaufen") (lowerStr raw) = true) :
    parse_documents raw doc dt = [] := by
  have hx : sessionExpired raw = true := by
    unfold sessionExpired
    rcases h with h | h <;> simp [h]
  unfold parse_documents
  simp [hx]

/-- C5 witness: a German-language marker (in mixed case) inside a response
whose parsed forest would otherwise yield a document record. -/
theorem parse_documents_session_expired_witness :
    (isSubstr (str "session has expired")
        (lowerStr (str "<html>Ihre Sitzung abgelaufen. 14.03.2022 Gesellschafterliste</html>")) = true ∨
     isSubstr (str "sitzung abgelaufen")
        (lowerStr (str "<html>Ihre Sitzung abgelaufen. 14.03.2022 Gesellschafterliste</html>")) = true) ∧
    parse_documents (str "<html>Ihre Sitzung abgelaufen. 14.03.2022 Gesellschafterliste</html>")
      [c6treeAm] none = [] := by
  refine ⟨Or.inr (by decide), ?_⟩
  exact parse_documents_session_expired _ [c6treeAm] none (Or.inr (by decide))

/-! ## C9 — a results page with zero grid rows yields an empty list -/

/-- C9: when the results page has its grid table but the grid contains no
rows, extraction returns the empty company list (and no error — the `none`
that models an exception is impossible here). -/
theorem get_companies_empty_grid (doc : List Node) (grid : Node)
    (hg : findGrid doc = some grid)
    (hr : descTag (str "tr") grid = []) :
    get_companies_in_searchresults doc = some [] := by
  unfold get_companies_in_searchresults
  rw [hg]
  simp only []
  rw [hr]
  rfl

def c9page : List Node :=
  [.elem (str "div") [] [.elem (str "table") [(str "role", str "grid")]
    [.elem (str "thead") [] []]]]

def c9grid : Node :=
  .elem (str "table") [(str "role", str "grid")] [.elem (str "thead") [] []]

/-- C9 witness: a page whose grid holds a `thead` but no `tr` rows. -/
theorem get_companies_empty_grid_witness :
    findGrid c9page = some c9grid ∧ descTag (str "tr") c9grid = [] ∧
    get_companies_in_searchresults c9page = some [] := by
  exact ⟨rfl, rfl, get_companies_empty_grid c9page c9grid rfl rfl⟩

/-! ## C6 — the placeholder-reference document example -/

/-- C6 counterexample: with the anchor reference spelled `#node42` (as the
claim puts it), the extracted record keeps the literal `#node42` as its
download reference — only the exact placeholder `#` is replaced by the
element's identifier (line 348: `if pdf_link == '#'`), so no record with
download reference `node42` exists. -/
theorem c6_placeholder_counterexample :
    parse_documents (str "<li>14.03.2022</li>") [c6tree] none =
      [{ id := str "#node42", pdf := some (str "#node42"), rowkey := none,
         date := ⟨2022, 3, 14⟩, name := str "14.03.2022 Gesellschafterliste",
         typeString := none, type := none }] ∧
    ¬ ∃ d ∈ parse_documents (str "<li>14.03.2022</li>") [c6tree] none,
        d.pdf = some (str "node42") := by
  exact ⟨by decide, by decide⟩

/-- C6 amended: a fragment whose text `14.03.2022 Gesellschafterliste` sits
inside an anchor whose reference is the exact placeholder `#` and whose own
identifier is `node42` yields one DocumentRecord with date 2022-03-14, a name
containing `Gesellschafterliste`, and download reference `node42`; the
reference `#node42` is kept verbatim. -/
theorem c6_placeholder_amended :
    parse_documents (str "<li>14.03.2022</li>") [c6treeAm] none =
      [{ id := str "node42", pdf := some (str "node42"), rowkey := none,
         date := ⟨2022, 3, 14⟩, name := str "14.03.2022 Gesellschafterliste",
         typeString := none, type := none }] ∧
    (∀ d ∈ parse_documents (str "<li>14.03.2022</li>") [c6treeAm] none,
      d.date = ⟨2022, 3, 14⟩ ∧ isSubstr (str "Gesellschafterliste") d.name = true ∧
      d.pdf = some (str "node42")) := by
  exact ⟨by decide, by decide⟩

/-! ## C7 -/

lemma parse_result_short (row : Node) (h : (descTag (str "td") row).length < 5) :
    parse_result row = none := by
  unfold parse_result
  rw [if_pos]
  simpa using h

lemma collectRows_bad (rows : List Node) (r : Node) (hr : r ∈ rows)
    (hda : (getAttr (attrsOf r) (str "data-ri")).isSome = true)
    (hc : (descTag (str "td") r).length < 5) :
    collectRows rows = none := by
  induction rows with
  | nil => cases hr
  | cons x xs ih =>
    rcases List.mem_cons.mp hr with rfl | hmem
    · unfold collectRows
      obtain ⟨v, hv⟩ := Option.isSome_iff_exists.mp hda
      cases hpi : parseIntStr v with
      | none => simp only [hv, hpi]
      | some k => simp only [hv, hpi, parse_result_short r hc]
    · unfold collectRows
      cases hda2 : getAttr (attrsOf x) (str "data-ri") with
      | none => simp only [hda2]; exact ih hmem
      | some v =>
        cases hpi : parseIntStr v with
        | none => simp only [hda2, hpi]
        | some k =>
          cases hpr : parse_result x with
          | none => simp only [hda2, hpi, hpr]
          | some c => simp only [hda2, hpi, hpr, ih hmem]

/-- C7 amended: result-row extraction is *not* total over malformed rows —
a grid row that carries the row-index marker but fewer than the five cells
`parse_result` reads unconditionally makes the whole extraction raise
(`IndexError` on `cells[1]`…`cells[4]`), modelled as `none`; no records are
returned, not even those of the well-formed rows. -/
theorem malformed_row_aborts_extraction (doc : List Node) (grid row : Node)
    (hg : findGrid doc = some grid)
    (hrow : row ∈ descTag (str "tr") grid)
    (hda : (getAttr (attrsOf row) (str "data-ri")).isSome = true)
    (hc : (descTag (str "td") row).length < 5) :
    get_companies_in_searchresults doc = none := by
  unfold get_companies_in_searchresults
  rw [hg]
  exact collectRows_bad _ row hrow hda hc

def goodRow : Node :=
  .elem (str "tr") [(str "data-ri", str "0")]
    [.elem (str "td") [] [.text (str "x")],
     .elem (str "td") [] [.text (str "court A")],
     .elem (str "td") [] [.text (str "Name A")],
     .elem (str "td") [] [.text (str "Berlin")],
     .elem (str "td") [] [.text (str "currently registered")]]

def badRow : Node :=
  .elem (str "tr") [(str "data-ri", str "1")]
    [.elem (str "td") [] [.text (str "only one cell")]]

def c7gridBoth : Node := .elem (str "table") [(str "role", str "grid")] [goodRow, badRow]

def c7pageBoth : List Node := [c7gridBoth]

def c7pageGood : List Node := [.elem (str "table") [(str "role", str "grid")] [goodRow]]

/-- The record the well-formed row alone yields. -/
def goodCompany : Company :=
  { court := str "court A", register_num := none, name := str "Name A",
    state := str "Berlin", status := str "currently registered",
    statusCurrent := str "CURRENTLY_REGISTERED", federalState := str "Berlin",
    city := none, documents := [], dk_id := none, history := [] }

/-- C7 counterexample: on a grid holding one well-formed row and one marked
row with a single cell, extraction returns nothing at all (the modelled
`IndexError`), although the same grid without the malformed row yields the
well-formed record — the malformed row is fatal, not skipped. -/
theorem malformed_row_not_skipped_counterexample :
    get_companies_in_searchresults c7pageBoth = none ∧
    get_companies_in_searchresults c7pageGood = some [goodCompany] := by
  exact ⟨by decide, by decide⟩

/-- C7 witness for the amended claim, at the same concrete page. -/
theorem malformed_row_aborts_extraction_witness :
    (getAttr (attrsOf badRow) (str "data-ri")).isSome = true ∧
    (descTag (str "td") badRow).length < 5 ∧
    get_companies_in_searchresults c7pageBoth = none := by
  refine ⟨by decide, by decide, ?_⟩
  exact malformed_row_aborts_extraction c7pageBoth c7gridBoth badRow rfl
    (List.Mem.tail _ (List.Mem.head _)) (by decide) (by decide)

/-! ## C10 -/

theorem mem_replace1 (a r : Nat) : ∀ (s : Str) (c : Nat),
    c ∈ replace1 a r s → c = r ∨ (c ∈ s ∧ c ≠ a)
  | [], c, h => by simp [replace1] at h
  | x :: xs, c, h => by
    rw [replace1] at h
    rcases List.mem_cons.mp h with hc | hc
    · by_cases hx : x = a
      · rw [if_pos hx] at hc; exact Or.inl hc
      · rw [if_neg hx] at hc; exact Or.inr ⟨by simp [hc], hc ▸ hx⟩
    · rcases mem_replace1 a r xs c hc with h1 | ⟨h2, h3⟩
      · exact Or.inl h1
      · exact Or.inr ⟨List.mem_cons_of_mem _ h2, h3⟩

theorem mem_replace3 (a b c3 r : Nat) : ∀ (s : Str) (c : Nat),
    c ∈ replace3 a b c3 r s → c = r ∨ c ∈ s
  | [], c, h => by simp [replace3] at h
  | [x], c, h => by simp [replace3] at h; exact Or.inr (by simp [h])
  | [x, y], c, h => by simp [replace3] at h; exact Or.inr (by simp [h])
  | x :: y :: z :: rest, c, h => by
    rw [replace3] at h
    split at h
    · rcases List.mem_cons.mp h with hc | hc
      · exact Or.inl hc
      · rcases mem_replace3 a b c3 r rest c hc with h1 | h2
        · exact Or.inl h1
        · exact Or.inr (by simp [h2])
    · rcases List.mem_cons.mp h with hc | hc
      · exact Or.inr (by simp [hc])
      · rcases mem_replace3 a b c3 r (y :: z :: rest) c hc with h1 | h2
        · exact Or.inl h1
        · exact Or.inr (by simpa using List.mem_cons_of_mem x h2)

theorem mem_collapseU : ∀ (s : Str) (c : Nat), c ∈ collapseU s → c ∈ s
  | [], c, h => by simp [collapseU] at h
  | [x], c, h => by simp [collapseU] at h; simp [h]
  | x :: y :: rest, c, h => by
    rw [collapseU] at h
    split at h
    · exact List.mem_cons_of_mem _ (mem_collapseU (y :: rest) c h)
    · rcases List.mem_cons.mp h with hc | hc
      · simp [hc]
      · exact List.mem_cons_of_mem _ (mem_collapseU (y :: rest) c hc)

theorem collapseU_head : ∀ (c : Nat) (t : Str), (collapseU (c :: t)).head? = some c
  | _, [] => rfl
  | c, c2 :: r => by
    rw [show collapseU (c :: c2 :: r) =
        if c = 95 ∧ c2 = 95 then collapseU (c2 :: r) else c :: collapseU (c2 :: r) from rfl]
    split
    · rename_i hcc
      rw [collapseU_head c2 r, hcc.1, hcc.2]
    · simp

/-- No two adjacent underscores. -/
def noDoubleU (a b : Nat) : Prop := ¬(a = 95 ∧ b = 95)

theorem collapseU_chain : ∀ (s : Str), List.Chain' noDoubleU (collapseU s)
  | [] => by simp [collapseU]
  | [x] => by simp [collapseU]
  | x :: y :: rest => by
    have ih := collapseU_chain (y :: rest)
    rw [show collapseU (x :: y :: rest) =
        if x = 95 ∧ y = 95 then collapseU (y :: rest) else x :: collapseU (y :: rest) from rfl]
    split
    · exact ih
    · rename_i hne
      refine List.chain'_cons'.mpr ⟨?_, ih⟩
      intro b hb
      rw [collapseU_head y rest] at hb
      injection hb with hb
      exact fun hx => hne ⟨hx.1, hb ▸ hx.2⟩

theorem chain'_dropWhile {α : Type} {R : α → α → Prop} (p : α → Bool) :
    ∀ (l : List α), List.Chain' R l → List.Chain' R (l.dropWhile p)
  | [], h => by simp
  | c :: t, h => by
    rw [List.dropWhile_cons]
    split
    · exact chain'_dropWhile p t h.tail
    · exact h

theorem dropWhile_head_false {α : Type} (p : α → Bool) :
    ∀ (l : List α) (c : α) (t : List α), l.dropWhile p = c :: t → p c = false
  | [], c, t, h => by simp at h
  | x :: xs, c, t, h => by
    rw [List.dropWhile_cons] at h
    split at h
    · exact dropWhile_head_false p xs c t h
    · rename_i hx
      injection h with h1 _
      subst h1
      simpa using hx

lemma stripUnder_subset (s : Str) : ∀ c ∈ stripUnder s, c ∈ s := by
  intro c hc
  unfold stripUnder at hc
  rw [List.mem_reverse] at hc
  have hc2 := (List.dropWhile_sublist _).mem hc
  rw [List.mem_reverse] at hc2
  exact (List.dropWhile_sublist _).mem hc2

lemma stripUnder_chain (s : Str) (h : List.Chain' noDoubleU s) :
    List.Chain' noDoubleU (stripUnder s) := by
  unfold stripUnder
  have symm : ∀ a b : Nat, noDoubleU a b → noDoubleU b a := fun a b hn hx => hn ⟨hx.2, hx.1⟩
  have h1 := chain'_dropWhile (fun c => c = 95) s h
  have h2 : List.Chain' noDoubleU (s.dropWhile (fun c => c = 95)).reverse :=
    List.chain'_reverse.mpr (h1.imp symm)
  have h3 := chain'_dropWhile (fun c => c = 95) _ h2
  exact List.chain'_reverse.mpr (h3.imp symm)

lemma stripUnder_head_ne (s : Str) (c : Nat) (h : (stripUnder s).head? = some c) : c ≠ 95 := by
  unfold stripUnder at h
  set m := s.dropWhile (fun c => decide (c = 95)) with hm
  obtain ⟨pre, hpre⟩ := List.dropWhile_suffix (l := m.reverse) (p := fun c => decide (c = 95))
  set w := m.reverse.dropWhile (fun c => decide (c = 95)) with hw
  have hmw : m = w.reverse ++ pre.reverse := by
    rw [← List.reverse_reverse m, ← hpre]
    simp
  cases hout : w.reverse with
  | nil => rw [hout] at h; simp at h
  | cons c0 t0 =>
    rw [hout] at h
    injection h with h0
    subst h0
    rw [hout] at hmw
    have he : s.dropWhile (fun c => decide (c = 95)) = c0 :: (t0 ++ pre.reverse) := by
      rw [← hm]; simpa using hmw
    have hp := dropWhile_head_false _ s c0 _ he
    simpa using hp

lemma stripUnder_last_ne (s : Str) (c : Nat) (h : (stripUnder s).getLast? = some c) : c ≠ 95 := by
  unfold stripUnder at h
  rw [List.getLast?_reverse] at h
  cases hw : (s.dropWhile (fun c => decide (c = 95))).reverse.dropWhile (fun c => decide (c = 95)) with
  | nil => rw [hw] at h; simp at h
  | cons c0 t0 =>
    rw [hw] at h
    injection h with h0
    subst h0
    have hp := dropWhile_head_false _ _ c0 t0 hw
    simpa using hp

lemma toUpperC_cases (x : Nat) :
    (97 ≤ x ∧ x ≤ 122 ∧ toUpperC x = x - 32) ∨ (¬(97 ≤ x ∧ x ≤ 122) ∧ toUpperC x = x) := by
  unfold toUpperC
  by_cases h : 97 ≤ x ∧ x ≤ 122
  · left
    refine ⟨h.1, h.2, ?_⟩
    rw [if_pos (by simp [h.1, h.2])]
  · right
    refine ⟨h, ?_⟩
    rw [if_neg (by simpa using h)]

/-- C10: `normalize_type` establishes a canonical shape — `None`/empty labels
give `None`; any produced code contains no space and no slash, has no two
adjacent underscores, neither starts nor ends with an underscore, and holds
no lowercase ASCII letter. -/
theorem normalize_type_canonical (ts : Option Str) :
    (truthyOpt ts = false → normalize_type ts = none) ∧
    (∀ out, normalize_type ts = some out →
      (∀ c ∈ out, c ≠ 32) ∧ (∀ c ∈ out, c ≠ 47) ∧
      List.Chain' noDoubleU out ∧
      (∀ c, out.head? = some c → c ≠ 95) ∧
      (∀ c, out.getLast? = some c → c ≠ 95) ∧
      (∀ c ∈ out, ¬(97 ≤ c ∧ c ≤ 122))) := by
  constructor
  · intro ht
    cases ts with
    | none => rfl
    | some s =>
      have hs : s = [] := by
        by_contra hne
        simp [truthyOpt, hne] at ht
      subst hs
      rfl
  · intro out hout
    cases ts with
    | none => exact absurd hout (by simp [normalize_type])
    | some s =>
      have hrw : normalize_type (some s) = if s = [] then none else
          some (stripUnder (collapseU (upperStr (replace1 47 95 (replace1 32 95
            (replace3 32 45 32 95 (replace3 32 47 32 95 s))))))) := rfl
      rw [hrw] at hout
      split at hout
      · exact absurd hout (by simp)
      · injection hout with hout
        subst hout
        set t4 := replace1 47 95 (replace1 32 95 (replace3 32 45 32 95 (replace3 32 47 32 95 s)))
          with ht4
        have hmem : ∀ c ∈ stripUnder (collapseU (upperStr t4)),
            ∃ x ∈ t4, c = toUpperC x := by
          intro c hc
          have h1 := stripUnder_subset _ c hc
          have h2 := mem_collapseU _ c h1
          obtain ⟨x, hx, he⟩ := List.mem_map.mp h2
          exact ⟨x, hx, he.symm⟩
        refine ⟨?_, ?_, ?_, ?_, ?_, ?_⟩
        · intro c hc
          obtain ⟨x, hx, he⟩ := hmem c hc
          intro h32
          have hx32 : x = 32 := by
            rcases toUpperC_cases x with ⟨h1, h2, h3⟩ | ⟨h1, h3⟩ <;> omega
          subst hx32
          rcases mem_replace1 47 95 _ 32 hx with h | ⟨hin, _⟩
          · omega
          · rcases mem_replace1 32 95 _ 32 hin with h | ⟨_, hne⟩
            · omega
            · exact hne rfl
        · intro c hc
          obtain ⟨x, hx, he⟩ := hmem c hc
          intro h47
          have hx47 : x = 47 := by
            rcases toUpperC_cases x with ⟨h1, h2, h3⟩ | ⟨h1, h3⟩ <;> omega
          subst hx47
          rcases mem_replace1 47 95 _ 47 hx with h | ⟨_, hne⟩
          · omega
          · exact hne rfl
        · exact stripUnder_chain _ (collapseU_chain _)
        · exact fun c hc => stripUnder_head_ne _ c hc
        · exact fun c hc => stripUnder_last_ne _ c hc
        · intro c hc
          obtain ⟨x, hx, he⟩ := hmem c hc
          rcases toUpperC_cases x with ⟨h1, h2, h3⟩ | ⟨h1, h3⟩ <;> [omega; ·
            intro hcl
            exact h1 (by omega)]

/-- C10 witness: the empty label and the concrete label ` a b / c__d `. -/
theorem normalize_type_canonical_witness :
    truthyOpt (some ([] : Str)) = false ∧ normalize_type (some ([] : Str)) = none ∧
    normalize_type (some (str " a b / c__d ")) = some (str "A_B_C_D") ∧
    (∀ c ∈ str "A_B_C_D", c ≠ 32) ∧ List.Chain' noDoubleU (str "A_B_C_D") := by
  have h := (normalize_type_canonical (some (str " a b / c__d "))).2 (str "A_B_C_D") (by decide)
  exact ⟨by decide, (normalize_type_canonical (some [])).1 (by decide), by decide, h.1, h.2.2.1⟩

/-! ## C2 -/

lemma daysInMonth_le (y m : Nat) : daysInMonth y m ≤ 31 := by
  unfold daysInMonth
  split_ifs <;> omega

lemma parseDate_valid (s : Str) (d : PDate) (h : parseDate s = some d) :
    dateValid d = true := by
  unfold parseDate at h
  split at h
  · rename_i a b q1 m1 m2 q2 y1 y2 y3 y4
    split at h
    · simp only [] at h
      split at h
      · rename_i hrange
        injection h with h
        subst h
        have hle := daysInMonth_le
          (1000 * (y1 - 48) + 100 * (y2 - 48) + 10 * (y3 - 48) + (y4 - 48))
          (10 * (m1 - 48) + (m2 - 48))
        simp only [Bool.and_eq_true, decide_eq_true_eq] at hrange
        simp only [dateValid, Bool.and_eq_true, decide_eq_true_eq]
        omega
      · exact absurd h (by simp)
    · exact absurd h (by simp)
  · exact absurd h (by simp)

lemma mkPrimaryDoc_valid (dt : Option Str) (tc : Str × List Node) (d : Doc)
    (h : mkPrimaryDoc dt tc = some d) : dateValid d.date = true := by
  unfold mkPrimaryDoc at h
  split at h
  · exact absurd h (by simp)
  · rename_i ds hds
    split at h
    · exact absurd h (by simp)
    · rename_i pd hpd
      simp only [] at h
      injection h with h
      subst h
      exact parseDate_valid ds pd hpd

lemma mkFallbackRow_valid (dt : Option Str) (row : Node) (d : Doc)
    (h : mkFallbackRow dt row = some d) : dateValid d.date = true := by
  unfold mkFallbackRow at h
  simp only [] at h
  split at h
  · exact absurd h (by simp)
  · split at h
    · exact absurd h (by simp)
    · rename_i dstr hdstr
      split at h
      · exact absurd h (by simp)
      · rename_i pd hpd
        split at h
        · exact absurd h (by simp)
        · split at h
          · exact absurd h (by simp)
          · injection h with h
            subst h
            exact parseDate_valid dstr pd hpd

lemma collectDocs_valid (doc : List Node) (dt : Option Str) :
    ∀ d ∈ collectDocs doc dt, dateValid d.date = true := by
  intro d hd
  unfold collectDocs at hd
  simp only [] at hd
  split at hd
  · unfold fallbackDocs at hd
    rw [List.mem_flatMap] at hd
    obtain ⟨t, _, hrow⟩ := hd
    rw [List.mem_filterMap] at hrow
    obtain ⟨row, _, hmk⟩ := hrow
    exact mkFallbackRow_valid dt row d hmk
  · unfold primaryDocs at hd
    rw [List.mem_filterMap] at hd
    obtain ⟨tc, _, hmk⟩ := hd
    exact mkPrimaryDoc_valid dt tc d hmk

lemma docKey_inj (a b : Doc) (ha : dateValid a.date = true) (hb : dateValid b.date = true) :
    docKey a = docKey b ↔ (a.date = b.date ∧ a.id = b.id) := by
  simp only [dateValid, Bool.and_eq_true, decide_eq_true_eq] at ha hb
  constructor
  · intro h
    simp only [docKey, List.cons.injEq] at h
    obtain ⟨e1, e2, e3, e4, -, e5, e6, -, e7, e8, -, -, -, -, -, -, -, -, -, -, hid⟩ := h
    refine ⟨?_, hid⟩
    have hy : a.date.year = b.date.year := by omega
    have hm : a.date.month = b.date.month := by omega
    have hd : a.date.day = b.date.day := by omega
    have ea : a.date = ⟨a.date.year, a.date.month, a.date.day⟩ := rfl
    have eb : b.date = ⟨b.date.year, b.date.month, b.date.day⟩ := rfl
    rw [ea, eb, PDate.mk.injEq]
    exact ⟨hy, hm, hd⟩
  · intro ⟨hD, hI⟩
    simp [docKey, hD, hI]

/-- Association-list lookup in the modelled dict. -/
def findEntry (k : Str) : List (Str × Doc) → Option Doc
  | [] => none
  | (k', v) :: t => if k' = k then some v else findEntry k t

/-- Every entry's key is the key of its record. -/
def allKeyed (l : List (Str × Doc)) : Prop := ∀ e ∈ l, docKey e.2 = e.1

def keysNodup (l : List (Str × Doc)) : Prop := (l.map Prod.fst).Nodup

lemma findEntry_upsert (k k' : Str) (v : Doc) (l : List (Str × Doc)) :
    findEntry k (upsert k' v l) = if k' = k then some v else findEntry k l := by
  induction l with
  | nil => rfl
  | cons e t ih =>
    obtain ⟨ke, ve⟩ := e
    unfold upsert
    by_cases hke : ke = k'
    · subst hke
      simp only [if_pos rfl]
      unfold findEntry
      by_cases hk : ke = k
      · simp [hk]
      · simp [hk]
    · rw [if_neg hke]
      unfold findEntry
      by_cases hk : ke = k
      · subst hk
        have : ¬ k' = ke := fun he => hke he.symm
        simp [this]
      · simp only [if_neg hk]
        exact ih

lemma upsert_mem (k : Str) (v : Doc) (l : List (Str × Doc)) (e : Str × Doc)
    (h : e ∈ upsert k v l) : e = (k, v) ∨ e ∈ l := by
  induction l with
  | nil => simpa [upsert] using h
  | cons e' t ih =>
    obtain ⟨ke, ve⟩ := e'
    unfold upsert at h
    split at h
    · rcases List.mem_cons.mp h with hc | hc
      · rename_i hke
        subst hke
        exact Or.inl (by simpa using hc)
      · exact Or.inr (List.mem_cons_of_mem _ hc)
    · rcases List.mem_cons.mp h with hc | hc
      · exact Or.inr (by simp [hc])
      · rcases ih hc with h1 | h2
        · exact Or.inl h1
        · exact Or.inr (List.mem_cons_of_mem _ h2)

lemma upsert_allKeyed (v : Doc) (l : List (Str × Doc)) (hl : allKeyed l) :
    allKeyed (upsert (docKey v) v l) := by
  intro e he
  rcases upsert_mem _ _ _ _ he with rfl | hmem
  · rfl
  · exact hl e hmem

lemma keys_upsert_mem (k : Str) (v : Doc) (l : List (Str × Doc)) (a : Str)
    (h : a ∈ (upsert k v l).map Prod.fst) : a = k ∨ a ∈ l.map Prod.fst := by
  rw [List.mem_map] at h
  obtain ⟨e, he, hfst⟩ := h
  rcases upsert_mem _ _ _ _ he with rfl | hmem
  · exact Or.inl hfst.symm
  · exact Or.inr (List.mem_map.mpr ⟨e, hmem, hfst⟩)

lemma upsert_keysNodup (k : Str) (v : Doc) (l : List (Str × Doc)) (hl : keysNodup l) :
    keysNodup (upsert k v l) := by
  induction l with
  | nil => simp [upsert, keysNodup]
  | cons e t ih =>
    obtain ⟨ke, ve⟩ := e
    unfold keysNodup at hl
    rw [List.map_cons, List.nodup_cons] at hl
    unfold upsert
    split
    · unfold keysNodup
      rw [List.map_cons, List.nodup_cons]
      exact hl
    · unfold keysNodup
      rw [List.map_cons, List.nodup_cons]
      refine ⟨?_, ih hl.2⟩
      intro hmem
      rcases keys_upsert_mem _ _ _ _ hmem with h1 | h2
      · rename_i hne; exact hne h1
      · exact hl.1 h2

lemma buildDict_step (docs : List Doc) :
    ∀ acc, allKeyed acc → keysNodup acc →
      allKeyed (docs.foldl (fun a d => upsert (docKey d) d a) acc) ∧
      keysNodup (docs.foldl (fun a d => upsert (docKey d) d a) acc) := by
  induction docs with
  | nil => intro acc h1 h2; exact ⟨h1, h2⟩
  | cons d rest ih =>
    intro acc h1 h2
    exact ih _ (upsert_allKeyed d acc h1) (upsert_keysNodup _ d acc h2)

lemma buildDict_allKeyed (docs : List Doc) : allKeyed (buildDict docs) :=
  (buildDict_step docs [] (by intro e he; cases he) (by simp [keysNodup])).1

lemma buildDict_keysNodup (docs : List Doc) : keysNodup (buildDict docs) :=
  (buildDict_step docs [] (by intro e he; cases he) (by simp [keysNodup])).2

lemma foldl_entry_mem (docs : List Doc) :
    ∀ acc (e : Str × Doc), e ∈ docs.foldl (fun a d => upsert (docKey d) d a) acc →
      e ∈ acc ∨ e.2 ∈ docs := by
  induction docs with
  | nil => intro acc e h; exact Or.inl h
  | cons d rest ih =>
    intro acc e h
    rcases ih _ e h with h1 | h2
    · rcases upsert_mem _ _ _ _ h1 with rfl | hmem
      · exact Or.inr (by simp)
      · exact Or.inl hmem
    · exact Or.inr (List.mem_cons_of_mem _ h2)

lemma dedupDocs_subset (docs : List Doc) (d : Doc) (h : d ∈ dedupDocs docs) : d ∈ docs := by
  unfold dedupDocs at h
  rw [List.mem_map] at h
  obtain ⟨e, he, hsnd⟩ := h
  rcases foldl_entry_mem docs [] e he with h1 | h2
  · cases h1
  · exact hsnd ▸ h2

lemma findEntry_foldl (k : Str) (docs : List Doc) :
    ∀ acc, findEntry k (docs.foldl (fun a d => upsert (docKey d) d a) acc) =
      (docs.reverse.find? (fun d => decide (docKey d = k))).or (findEntry k acc) := by
  induction docs with
  | nil => intro acc; simp
  | cons d rest ih =>
    intro acc
    rw [List.foldl_cons, ih, List.reverse_cons, List.find?_append, Option.or_assoc]
    congr 1
    rw [findEntry_upsert]
    by_cases hk : docKey d = k
    · simp [List.find?, hk]
    · simp [List.find?, hk]

lemma filter_nil_of_no_key (k : Str) (l : List (Str × Doc)) (hak : allKeyed l)
    (hnk : k ∉ l.map Prod.fst) :
    (l.map Prod.snd).filter (fun d => decide (docKey d = k)) = [] := by
  induction l with
  | nil => rfl
  | cons e t ih =>
    obtain ⟨ke, ve⟩ := e
    rw [List.map_cons, List.filter_cons]
    have hkv : docKey ve = ke := hak (ke, ve) (by simp)
    have hne : ke ≠ k := by
      intro he; exact hnk (by simp [he])
    rw [if_neg (by simp [hkv, hne])]
    exact ih (fun e he => hak e (List.mem_cons_of_mem _ he)) (fun hm => hnk (by simp [hm]))

lemma findEntry_some_filter (k : Str) (l : List (Str × Doc)) (v : Doc)
    (hak : allKeyed l) (hnd : keysNodup l) (h : findEntry k l = some v) :
    (l.map Prod.snd).filter (fun d => decide (docKey d = k)) = [v] := by
  induction l with
  | nil => exact absurd h (by simp [findEntry])
  | cons e t ih =>
    obtain ⟨ke, ve⟩ := e
    unfold findEntry at h
    unfold keysNodup at hnd
    rw [List.map_cons, List.nodup_cons] at hnd
    have hkv : docKey ve = ke := hak (ke, ve) (by simp)
    rw [List.map_cons, List.filter_cons]
    split at h
    · rename_i hke
      injection h with h
      subst h
      rw [if_pos (by simp [hkv, hke])]
      rw [filter_nil_of_no_key k t (fun e he => hak e (List.mem_cons_of_mem _ he)) (hke ▸ hnd.1)]
    · rename_i hke
      rw [if_neg (by simp [hkv]; exact hke)]
      exact ih (fun e he => hak e (List.mem_cons_of_mem _ he)) hnd.2 h

lemma find?_congr {α : Type} (p q : α → Bool) :
    ∀ (l : List α), (∀ x ∈ l, p x = q x) → l.find? p = l.find? q
  | [], _ => rfl
  | x :: xs, h => by
    have hx := h x (by simp)
    rw [List.find?_cons, List.find?_cons, hx]
    split
    · rfl
    · exact find?_congr p q xs (fun y hy => h y (List.mem_cons_of_mem _ hy))

/-- C2: document deduplication is last-wins on the (date, id) key — for every
input, whenever two extracted records agree on date and id, the returned list
holds exactly one record with that (date, id), and it is the last one the
extraction produced. -/
theorem dedup_last_wins (raw : Str) (doc : List Node) (dt : Option Str) (d1 d2 : Doc)
    (hexp : sessionExpired raw = false)
    (h1 : d1 ∈ collectDocs doc dt) (_h2 : d2 ∈ collectDocs doc dt)
    (_hdd : d1.date = d2.date) (_hii : d1.id = d2.id) :
    ∃ r, (parse_documents raw doc dt).filter
          (fun d => decide (d.date = d1.date) && decide (d.id = d1.id)) = [r] ∧
        (collectDocs doc dt).reverse.find?
          (fun d => decide (d.date = d1.date) && decide (d.id = d1.id)) = some r := by
  have hv : ∀ d ∈ collectDocs doc dt, dateValid d.date = true := collectDocs_valid doc dt
  have hvd1 : dateValid d1.date = true := hv d1 h1
  have hpe : ∀ d ∈ collectDocs doc dt,
      (decide (d.date = d1.date) && decide (d.id = d1.id)) = decide (docKey d = docKey d1) := by
    intro d hd
    rw [← Bool.decide_and, decide_eq_decide]
    exact (docKey_inj d d1 (hv d hd) hvd1).symm
  -- the last record with the key
  have hfs : ((collectDocs doc dt).reverse.find?
      (fun d => decide (docKey d = docKey d1))).isSome := by
    rw [List.find?_isSome]
    exact ⟨d1, List.mem_reverse.mpr h1, by simp⟩
  obtain ⟨v, hvfind⟩ := Option.isSome_iff_exists.mp hfs
  have hvmem : v ∈ collectDocs doc dt :=
    List.mem_reverse.mp (List.mem_of_find?_eq_some hvfind)
  -- the dict holds exactly that record under the key
  have hfe : findEntry (docKey d1) (buildDict (collectDocs doc dt)) = some v := by
    unfold buildDict
    rw [findEntry_foldl, hvfind]
    rfl
  have hfil : (dedupDocs (collectDocs doc dt)).filter
      (fun d => decide (docKey d = docKey d1)) = [v] :=
    findEntry_some_filter _ _ v (buildDict_allKeyed _) (buildDict_keysNodup _) hfe
  refine ⟨v, ?_, ?_⟩
  · have hout : parse_documents raw doc dt = sortDocs (dedupDocs (collectDocs doc dt)) := by
      unfold parse_documents
      rw [if_neg (by simp [hexp])]
    rw [hout]
    have hmm : ∀ x ∈ sortDocs (dedupDocs (collectDocs doc dt)), x ∈ collectDocs doc dt := by
      intro x hx
      unfold sortDocs at hx
      rw [List.mem_insertionSort] at hx
      exact dedupDocs_subset _ x hx
    rw [List.filter_congr (fun x hx => hpe x (hmm x hx))]
    have hperm : List.Perm
        ((sortDocs (dedupDocs (collectDocs doc dt))).filter
          (fun d => decide (docKey d = docKey d1)))
        ((dedupDocs (collectDocs doc dt)).filter (fun d => decide (docKey d = docKey d1))) :=
      (List.perm_insertionSort docGE _).filter _
    rw [hfil] at hperm
    exact List.perm_singleton.mp hperm
  · have hcg := find?_congr
      (fun d => decide (d.date = d1.date) && decide (d.id = d1.id))
      (fun d => decide (docKey d = docKey d1))
      ((collectDocs doc dt).reverse)
      (fun x hx => hpe x (List.mem_reverse.mp hx))
    rw [hcg]
    exact hvfind

def c2forest : List Node :=
  [.elem (str "a") [(str "href", str "x.pdf")]
     [.elem (str "span") [] [.text (str "01.02.2020 Alpha")]],
   .elem (str "a") [(str "href", str "x.pdf")]
     [.elem (str "span") [] [.text (str "01.02.2020 Beta")]]]

def c2docA : Doc :=
  { id := str "x.pdf", pdf := some (str "x.pdf"), rowkey := none,
    date := ⟨2020, 2, 1⟩, name := str "01.02.2020 Alpha", typeString := none, type := none }

def c2docB : Doc :=
  { id := str "x.pdf", pdf := some (str "x.pdf"), rowkey := none,
    date := ⟨2020, 2, 1⟩, name := str "01.02.2020 Beta", typeString := none, type := none }

/-- C2 witness: two extracted records share (date, id) but differ in name;
the returned list keeps exactly the later one. -/
theorem dedup_last_wins_witness :
    sessionExpired (str "ok") = false ∧
    c2docA ∈ collectDocs c2forest none ∧ c2docB ∈ collectDocs c2forest none ∧
    (∃ r, (parse_documents (str "ok") c2forest none).filter
          (fun d => decide (d.date = c2docA.date) && decide (d.id = c2docA.id)) = [r] ∧
        (collectDocs c2forest none).reverse.find?
          (fun d => decide (d.date = c2docA.date) && decide (d.id = c2docA.id)) = some r) ∧
    parse_documents (str "ok") c2forest none = [c2docB] := by
  refine ⟨by decide, by decide, by decide, ?_, by decide⟩
  exact dedup_last_wins (str "ok") c2forest none c2docA c2docB (by decide) (by decide)
    (by decide) rfl rfl

/-! ## C8 and C4 — register-number shape and suffix idempotence -/

theorem isPre_append_drop : ∀ (l s : Str), l.isPrefixOf s = true → s = l ++ s.drop l.length := by
  intro l
  induction l with
  | nil => intro s h; simp
  | cons c cs ih =>
    intro s h
    cases s with
    | nil => simp [List.isPrefixOf] at h
    | cons b bs =>
      simp only [List.isPrefixOf_cons₂, Bool.and_eq_true, beq_iff_eq] at h
      obtain ⟨rfl, h2⟩ := h
      have h3 := ih bs h2
      simp only [List.length_cons, List.drop_succ_cons, List.cons_append]
      exact congrArg (c :: ·) h3

/-- The shape the claim describes: a register-type code, optional whitespace,
at least one digit, and at most one trailing capital letter (preceded by
whitespace). -/
def RegShape (r : Str) : Prop :=
  ∃ p sp ds tl, r = p ++ sp ++ ds ++ tl ∧
    (p = str "HRA" ∨ p = str "HRB" ∨ p = str "GnR" ∨ p = str "VR" ∨ p = str "PR") ∧
    (∀ c ∈ sp, isSpaceC c = true) ∧ ds ≠ [] ∧ (∀ c ∈ ds, isDigitC c = true) ∧
    (tl = [] ∨ ∃ sp2 c, tl = sp2 ++ [c] ∧ sp2 ≠ [] ∧
      (∀ x ∈ sp2, isSpaceC x = true) ∧ isUpperC c = true)

theorem takeRegPrefix_sound (s p r0 : Str) (h : takeRegPrefix s = some (p, r0)) :
    (p = str "HRA" ∨ p = str "HRB" ∨ p = str "GnR" ∨ p = str "VR" ∨ p = str "PR") ∧
    s = p ++ r0 := by
  unfold takeRegPrefix at h
  split_ifs at h with h1 h2 h3 h4 h5 <;>
    (injection h with h'; injection h' with hp hr; subst hp; subst hr)
  · exact ⟨Or.inl rfl, isPre_append_drop _ _ h1⟩
  · exact ⟨Or.inr (Or.inl rfl), isPre_append_drop _ _ h2⟩
  · exact ⟨Or.inr (Or.inr (Or.inl rfl)), isPre_append_drop _ _ h3⟩
  · exact ⟨Or.inr (Or.inr (Or.inr (Or.inl rfl))), isPre_append_drop _ _ h4⟩
  · exact ⟨Or.inr (Or.inr (Or.inr (Or.inr rfl))), isPre_append_drop _ _ h5⟩

theorem matchRegAt_sound (s r post : Str) (h : matchRegAt s = some (r, post)) :
    RegShape r ∧ s = r ++ post ∧ headIsWord post = false := by
  unfold matchRegAt at h
  split at h
  · exact absurd h (by simp)
  · rename_i p r0 heq
    obtain ⟨hp, hs⟩ := takeRegPrefix_sound s p r0 heq
    simp only [] at h
    split at h
    · exact absurd h (by simp)
    · rename_i hds
      split at h
      · rename_i res hwg
        injection h with h'
        subst h'
        split at hwg
        · exact absurd hwg (by simp)
        · rename_i hsp2
          split at hwg
          · exact absurd hwg (by simp)
          · rename_i c r4 hr3
            split at hwg
            · rename_i hc
              injection hwg with hwg'
              injection hwg' with hr hpost
              subst hr; subst hpost
              simp only [Bool.and_eq_true, Bool.not_eq_true'] at hc
              refine ⟨⟨p, r0.takeWhile isSpaceC,
                  (r0.dropWhile isSpaceC).takeWhile isDigitC,
                  ((r0.dropWhile isSpaceC).dropWhile isDigitC).takeWhile isSpaceC ++ [c],
                  by simp [List.append_assoc], hp,
                  fun x hx => List.mem_takeWhile_imp hx, hds,
                  fun x hx => List.mem_takeWhile_imp hx,
                  Or.inr ⟨_, c, rfl, hsp2, fun x hx => List.mem_takeWhile_imp hx, hc.1⟩⟩,
                ?_, hc.2⟩
              rw [hs]
              have e1 := List.takeWhile_append_dropWhile (p := isSpaceC) (l := r0)
              have e2 := List.takeWhile_append_dropWhile (p := isDigitC) (l := r0.dropWhile isSpaceC)
              have e3 := List.takeWhile_append_dropWhile (p := isSpaceC) (l := (r0.dropWhile isSpaceC).dropWhile isDigitC)
              conv_lhs => rw [← e1, ← e2, ← e3, hr3]
              simp [List.append_assoc]
            · exact absurd hwg (by simp)
      · rename_i hwg
        split at h
        · exact absurd h (by simp)
        · rename_i hw2
          injection h with h'
          injection h' with hr hpost
          subst hr; subst hpost
          refine ⟨⟨p, r0.takeWhile isSpaceC,
              (r0.dropWhile isSpaceC).takeWhile isDigitC, [],
              by simp, hp,
              fun x hx => List.mem_takeWhile_imp hx, hds,
              fun x hx => List.mem_takeWhile_imp hx, Or.inl rfl⟩,
            ?_, by simpa using hw2⟩
          rw [hs]
          have e1 := List.takeWhile_append_dropWhile (p := isSpaceC) (l := r0)
          have e2 := List.takeWhile_append_dropWhile (p := isDigitC) (l := r0.dropWhile isSpaceC)
          conv_lhs => rw [← e1, ← e2]
          simp [List.append_assoc]

theorem searchRegFull_sound (court pre r post : Str)
    (h : searchRegFull court = some (pre, r, post)) :
    RegShape r ∧ court = pre ++ r ++ post ∧ headIsWord post = false := by
  induction court generalizing pre with
  | nil => exact absurd h (by simp [searchRegFull])
  | cons c rest ih =>
    unfold searchRegFull at h
    split at h
    · rename_i r' post' hm
      injection h with h'
      injection h' with h1 h2
      injection h2 with h2 h3
      subst h1; subst h2; subst h3
      obtain ⟨hsh, hEq, hw⟩ := matchRegAt_sound _ _ _ hm
      exact ⟨hsh, by simpa using hEq, hw⟩
    · rename_i hm
      split at h
      · rename_i pre' r' post' hrec
        injection h with h'
        injection h' with h1 h2
        injection h2 with h2 h3
        subst h1; subst h2; subst h3
        obtain ⟨hsh, hEq, hw⟩ := ih _ hrec
        exact ⟨hsh, by simp [hEq], hw⟩
      · exact absurd h (by simp)

lemma searchReg_sound (court r : Str) (h : searchReg court = some r) :
    RegShape r ∧ ∃ pre post, court = pre ++ r ++ post ∧ headIsWord post = false := by
  unfold searchReg at h
  split at h
  · rename_i pre rr post heq
    injection h with h'
    obtain ⟨hsh, hEq, hw⟩ := searchRegFull_sound court pre rr post heq
    exact ⟨h' ▸ hsh, pre, post, h' ▸ hEq, hw⟩
  · exact absurd h (by simp)

/-- C8: whatever the court string, a register number recovered by
`parse_result`'s pattern match is a register-type code followed (possibly
with whitespace) by digits and at most one whitespace-preceded capital
letter; and the character right after the match in the court string is not a
word character, so a letter that merely starts a longer word (such as
`Branches`) is never taken as the trailing letter. -/
theorem register_number_extraction_shape (court r : Str)
    (h : searchReg court = some r) :
    RegShape r ∧ ∃ pre post, court = pre ++ r ++ post ∧ headIsWord post = false :=
  searchReg_sound court r h

/-- C8 witness: the court string `District court Demo HRB 12345 Branches`
gives register number `HRB 12345` with the shape property. -/
theorem register_number_extraction_shape_witness :
    searchReg (str "District court Demo HRB 12345 Branches") = some (str "HRB 12345") ∧
    (RegShape (str "HRB 12345") ∧ ∃ pre post,
      str "District court Demo HRB 12345 Branches" = pre ++ str "HRB 12345" ++ post ∧
      headIsWord post = false) := by
  refine ⟨by decide,
    register_number_extraction_shape (str "District court Demo HRB 12345 Branches")
      (str "HRB 12345") (by decide)⟩

lemma takeWhile_append_stop (q : Nat → Bool) (a : Nat) (ha : q a = false)
    (l : Str) (s : Str) : (l ++ a :: s).takeWhile q = l.takeWhile q := by
  induction l with
  | nil => simp [List.takeWhile_cons, ha]
  | cons c t ih => by_cases hq : q c <;> simp [List.takeWhile_cons, hq, ih]

lemma isPre_self_append (l t : Str) : l.isPrefixOf (l ++ t) = true := by
  induction l with
  | nil => simp [List.isPrefixOf]
  | cons c cs ih => simp [List.isPrefixOf_cons₂, ih]

lemma endsWithS_append (r suf : Str) : endsWithS (r ++ suf) suf = true := by
  unfold endsWithS
  rw [List.reverse_append]
  exact isPre_self_append _ _

lemma suffixFor_cases (st t suf : Str) (h : suffixFor st t = some suf) :
    suf = str " B" ∨ suf = str " HB" := by
  unfold suffixFor at h
  split_ifs at h <;> simp_all

lemma firstToken_append_suffix (c : Nat) (t : Str) (hc : isSpaceC c = false) (s' : Str) :
    firstToken ((c :: t) ++ 32 :: s') = firstToken (c :: t) := by
  unfold firstToken
  simp only [List.cons_append, List.dropWhile_cons, hc, Bool.false_eq_true, if_false,
    List.takeWhile_cons, Bool.not_false, if_true]
  rw [takeWhile_append_stop _ 32 (by decide)]

lemma regShape_head (r : Str) (h : RegShape r) :
    ∃ c t, r = c :: t ∧ isSpaceC c = false := by
  obtain ⟨p, sp, ds, tl, hre, hp, _⟩ := h
  rcases hp with rfl | rfl | rfl | rfl | rfl <;> exact ⟨_, _, hre, by decide⟩

lemma fixSuffix_idem (state : Str) (c : Nat) (t : Str) (hc : isSpaceC c = false) :
    fixSuffix state (fixSuffix state (c :: t)) = fixSuffix state (c :: t) := by
  cases hsf : suffixFor state (firstToken (c :: t)) with
  | none =>
    have h1 : fixSuffix state (c :: t) = c :: t := by unfold fixSuffix; rw [hsf]
    rw [h1]; exact h1
  | some suf =>
    by_cases hew : endsWithS (c :: t) suf = true
    · have h1 : fixSuffix state (c :: t) = c :: t := by
        unfold fixSuffix; rw [hsf]; simp [hew]
      rw [h1]; exact h1
    · have h1 : fixSuffix state (c :: t) = (c :: t) ++ suf := by
        unfold fixSuffix; rw [hsf]; simp [hew]
      rw [h1]
      obtain rfl | rfl := suffixFor_cases state (firstToken (c :: t)) suf hsf
      · have hft : firstToken ((c :: t) ++ str " B") = firstToken (c :: t) :=
          firstToken_append_suffix c t hc [66]
        unfold fixSuffix
        rw [hft, hsf]
        have he := endsWithS_append (c :: t) (str " B")
        rw [List.cons_append] at he
        simp [he]
      · have hft : firstToken ((c :: t) ++ str " HB") = firstToken (c :: t) :=
          firstToken_append_suffix c t hc [72, 66]
        unfold fixSuffix
        rw [hft, hsf]
        have he := endsWithS_append (c :: t) (str " HB")
        rw [List.cons_append] at he
        simp [he]

/-- C4: the (state, register type) → suffix rule is idempotent on every
recognized register number: a second application never appends again. -/
theorem fixSuffix_idempotent (state court r : Str) (h : searchReg court = some r) :
    fixSuffix state (fixSuffix state r) = fixSuffix state r := by
  have hsh : RegShape r := (searchReg_sound court r h).1
  obtain ⟨c, t, rfl, hc⟩ := regShape_head _ hsh
  exact fixSuffix_idem state c t hc

/-- C4 witness: Berlin `HRB 12345` gains its ` B` suffix once and only once. -/
theorem fixSuffix_idempotent_witness :
    searchReg (str "Berlin   Amtsgericht Berlin HRB 12345") = some (str "HRB 12345") ∧
    fixSuffix (str "Berlin") (fixSuffix (str "Berlin") (str "HRB 12345")) =
      fixSuffix (str "Berlin") (str "HRB 12345") ∧
    fixSuffix (str "Berlin") (str "HRB 12345") = str "HRB 12345 B" := by
  exact ⟨by decide,
    fixSuffix_idempotent (str "Berlin") (str "Berlin   Amtsgericht Berlin HRB 12345")
      (str "HRB 12345") (by decide), by decide⟩
